import Mathlib

/-!
Shallow embedding of `src/docling_converter.py`, a thin orchestration layer
around an external document-conversion engine (docling).

Modelling choices:
* Paths are POSIX-style strings; `pathlib` operations (`with_suffix`,
  `stem`, `glob`) are reimplemented faithfully on the underlying character
  lists (in particular the `rfind` based suffix rule of `pathlib.PurePath`).
* The filesystem is an explicit record of files (path, content) and
  directories, threaded through every operation.
* The external engine (`DocumentConverter.convert` followed by
  `export_to_markdown`) is an oracle `String → Option String` mapping an
  input path to the Markdown text it renders; `none` models a failure of
  the engine (corrupt input, unsupported content, and so on).
* `logger.info` / `logger.error` calls are recorded as a list of events;
  the CLI entry point `main` is recorded as a trace of actions
  (log-level configuration, argument errors, converter construction,
  printed lines, exit codes).
-/

namespace Docling

/-- Split a character list at its last slash: on `d ++ '/' :: n` with `n`
slash-free this yields `some (d, n)`; on a slash-free list it yields
`none`.  This is the "parent / name" decomposition of a path. -/
def splitLastSlash : List Char → Option (List Char × List Char)
  | [] => none
  | c :: cs =>
    match splitLastSlash cs with
    | some (d, n) => some (c :: d, n)
    | none => if c = '/' then some ([], cs) else none

/-- Index of the last dot of a character list, if any (the `name.rfind('.')`
of `pathlib`). -/
def rfindDot : List Char → Option Nat
  | [] => none
  | c :: cs =>
    match rfindDot cs with
    | some i => some (i + 1)
    | none => if c = '.' then some 0 else none

/-- Split a file name into stem and suffix, following `pathlib.PurePath`:
the suffix starts at the last dot provided that dot is neither the first
nor the last character of the name; otherwise the suffix is empty. -/
def splitExtName (name : List Char) : List Char × List Char :=
  match rfindDot name with
  | some i => if 0 < i ∧ i + 1 < name.length then (name.take i, name.drop i) else (name, [])
  | none => (name, [])

/-- Final component of a path (its `Path.name`). -/
def baseNameL (p : List Char) : List Char :=
  match splitLastSlash p with
  | some (_, n) => n
  | none => p

/-- Stem of a path: the final component without its suffix
(`Path(p).stem`). -/
def stemOf (p : String) : String :=
  (splitExtName (baseNameL p.toList)).1.asString

/-- Replace the suffix of a path by `.md`, keeping the parent part
(`Path(p).with_suffix(".md")`); when the name has no suffix, `.md` is
appended. -/
def withSuffixMd (p : String) : String :=
  match splitLastSlash p.toList with
  | some (d, n) => (d ++ '/' :: ((splitExtName n).1 ++ ".md".toList)).asString
  | none => ((splitExtName p.toList).1 ++ ".md".toList).asString

/-- Does path `p` denote an entry directly inside directory `dir` whose
name matches the glob pattern `*ext`?  This models membership of
`Path(dir).glob("*" + ext)`: the entry is `dir ++ "/" ++ name` with a
slash-free `name` ending in `ext` (the fnmatch star also matches the empty
string). -/
def matchesIn (dir ext p : String) : Bool :=
  match splitLastSlash p.toList with
  | some (d, n) => d == dir.toList && ext.toList.isSuffixOf n
  | none => false

/-- Filesystem state: regular files with their text content, and
directories.  Entry order of `files` models the (platform-dependent)
enumeration order of `os.scandir`. -/
structure FS where
  files : List (String × String)
  dirs : List String
deriving DecidableEq

/-- Does the path exist, as a file or as a directory
(`Path(p).exists()`)? -/
def FS.pathExists (fs : FS) (p : String) : Bool :=
  fs.files.any (fun e => e.1 == p) || fs.dirs.any (fun d => d == p)

/-- Content of the file at `p`, if any. -/
def FS.readFile (fs : FS) (p : String) : Option String :=
  (fs.files.find? (fun e => e.1 == p)).map (fun e => e.2)

/-- Write `content` to `p` (`open(p, "w")` followed by `write`):
overwrites an existing file in place, otherwise appends a new entry. -/
def FS.writeFile (fs : FS) (p content : String) : FS :=
  if fs.files.any (fun e => e.1 == p) then
    { fs with files := fs.files.map (fun e => if e.1 == p then (p, content) else e) }
  else
    { fs with files := fs.files ++ [(p, content)] }

/-- Create directory `p` if it is not already present
(`Path(p).mkdir(exist_ok=True)`); idempotent. -/
def FS.mkdir (fs : FS) (p : String) : FS :=
  if fs.dirs.any (fun d => d == p) then fs
  else { fs with dirs := fs.dirs ++ [p] }

/-- All entries (files and directories) directly inside `dir` whose name
matches the pattern `*ext` (`Path(dir).glob("*" + ext)`). -/
def FS.globDir (fs : FS) (dir ext : String) : List String :=
  (fs.files.map (fun e => e.1) ++ fs.dirs).filter (fun p => matchesIn dir ext p)

/-- Errors raised by the converter: `FileNotFoundError` for a missing
input, and any exception escaping the engine call or the write. -/
inductive ConvError where
  | notFound (path : String)
  | conversionError (path : String)
deriving DecidableEq

/-- Logging events emitted through `logger.info` / `logger.error`. -/
inductive LogEvent where
  | infoConverting (input output : String)
  | infoCompleted (output : String)
  | errConversion (input : String)
  | errBatchFile (path : String)
deriving DecidableEq

/-- The `DoclingConverter` instance: the OCR flag recognised at
construction, and the external engine it wraps (already configured with
`do_ocr := use_ocr` and `do_table_structure := True`). -/
structure DoclingConverter where
  use_ocr : Bool
  engine : String → Option String

/-- `DoclingConverter.convert_file`: check that the input exists
(`FileNotFoundError` otherwise), resolve the output path (the explicit one
verbatim, else the input with its suffix replaced by `.md`), run the
engine, write the Markdown, and return the output path.  The emitted log
events are returned next to the result. -/
def DoclingConverter.convert_file (c : DoclingConverter) (fs : FS)
    (input_path : String) (output_path : Option String) :
    List LogEvent × Except ConvError (FS × String) :=
  if fs.pathExists input_path then
    let out := output_path.getD (withSuffixMd input_path)
    match c.engine input_path with
    | some md =>
      ([.infoConverting input_path out, .infoCompleted out],
        .ok (fs.writeFile out md, out))
    | none =>
      ([.infoConverting input_path out, .errConversion input_path],
        .error (.conversionError input_path))
  else ([], .error (.notFound input_path))

/-- Default extension list of `convert_multiple_files`. -/
def defaultFileExtensions : List String :=
  [".pdf", ".docx", ".pptx", ".doc", ".ppt"]

/-- Output file for input `p` in batch mode:
`output_dir / (stem + ".md")`. -/
def outPath (od p : String) : String :=
  od ++ "/" ++ (stemOf p ++ ".md")

/-- State threaded through the batch loop: filesystem, log, and the list
of output paths collected so far. -/
structure BatchSt where
  fs : FS
  log : List LogEvent
  converted : List String
deriving DecidableEq

/-- Body of the batch loop for one enumerated entry: derive the output
file, call `convert_file`, collect the result on success, log and skip on
failure. -/
def batchFileStep (c : DoclingConverter) (od : String) (st : BatchSt) (fp : String) : BatchSt :=
  let output_file := outPath od fp
  match c.convert_file st.fs fp (some output_file) with
  | (evs, .ok (fs2, r)) =>
    { fs := fs2, log := st.log ++ evs, converted := st.converted ++ [r] }
  | (evs, .error _) =>
    { fs := st.fs, log := st.log ++ evs ++ [.errBatchFile fp], converted := st.converted }

/-- Output directory of a batch: the explicit one when given, otherwise
the fixed subdirectory `markdown_output` of the input directory. -/
def resolvedOutDir (input_dir : String) (output_dir : Option String) : String :=
  match output_dir with
  | some od => od
  | none => input_dir ++ "/markdown_output"

/-- The double loop of `convert_multiple_files`: for each extension in
order, enumerate the matching entries of the input directory in the
current filesystem and run the per-file step on each. -/
def batchRun (c : DoclingConverter) (od dir : String) (es : List String) (st : BatchSt) :
    BatchSt :=
  es.foldl
    (fun (s : BatchSt) (ext : String) => (s.fs.globDir dir ext).foldl (batchFileStep c od) s)
    st

/-- `DoclingConverter.convert_multiple_files`: default the extension list,
check the input directory exists (`FileNotFoundError` otherwise), resolve
and create the output directory, then for each extension in order convert
every matching entry, skipping failures. -/
def DoclingConverter.convert_multiple_files (c : DoclingConverter) (fs : FS)
    (input_dir : String) (output_dir : Option String)
    (file_extensions : Option (List String)) :
    List LogEvent × Except ConvError (FS × List String) :=
  let exts := file_extensions.getD defaultFileExtensions
  if fs.pathExists input_dir then
    let od := resolvedOutDir input_dir output_dir
    let fs1 := fs.mkdir od
    let st := batchRun c od input_dir exts { fs := fs1, log := [], converted := [] }
    (st.log, .ok (st.fs, st.converted))
  else ([], .error (.notFound input_dir))

/-- The fixed list returned by `get_supported_formats`. -/
def supportedFormatsList : List String :=
  [".pdf", ".docx", ".pptx", ".doc", ".ppt", ".html", ".txt"]

/-- `DoclingConverter.get_supported_formats`: a constant list, independent
of the instance. -/
def DoclingConverter.get_supported_formats (_ : DoclingConverter) : List String :=
  supportedFormatsList

/-- Log events produced while the batch loop processes one existing entry
`p` (two info lines on success; the info line, the conversion error and
the batch-level error on failure). -/
def eventsFor (c : DoclingConverter) (od p : String) : List LogEvent :=
  match c.engine p with
  | some _ => [.infoConverting p (outPath od p), .infoCompleted (outPath od p)]
  | none => [.infoConverting p (outPath od p), .errConversion p, .errBatchFile p]

/-- Number of per-file failures recorded by the batch loop. -/
def countErrBatch (log : List LogEvent) : Nat :=
  log.countP (fun e => match e with | .errBatchFile _ => true | _ => false)

/-! ### CLI layer -/

/-- Parsed command-line arguments (`argparse` namespace).  `extensions`
carries the argparse default when the flag is absent. -/
structure Args where
  input : Option String
  output : Option String
  directory : Option String
  output_dir : Option String
  ocr : Bool
  extensions : List String
  verbose : Bool

/-- Python truthiness of an optional string argument: present and
non-empty. -/
def given (o : Option String) : Bool :=
  match o with
  | some s => !(s == "")
  | none => false

/-- Process-wide logging level. -/
inductive LogLevel where
  | INFO
  | DEBUG
deriving DecidableEq

/-- Observable actions of the CLI entry point, in order. -/
inductive Action where
  | setLogLevel (lvl : LogLevel)
  | argError (msg : String)
  | constructConverter (ocr : Bool)
  | printLine (s : String)
  | printFormats (formats : List String)
  | exitCode (n : Nat)
deriving DecidableEq

/-- The CLI entry point `main`, as a trace of actions together with the
final filesystem.  `mkEngine` builds the external engine for the requested
OCR setting.  Mirrors the source: set the log level, validate the mutually
exclusive modes (argument errors exit with code 2 before the converter is
built), construct the converter, dispatch to single-file or batch mode,
print the outcome, print the supported formats when verbose, and exit 0;
any error from a conversion is logged and exits with code 1. -/
def main (mkEngine : Bool → String → Option String) (fs : FS) (a : Args) :
    List Action × FS :=
  let lvl := if a.verbose then LogLevel.DEBUG else LogLevel.INFO
  let t0 := [Action.setLogLevel lvl]
  if !(given a.input) && !(given a.directory) then
    (t0 ++ [.argError "Debe especificar un archivo de entrada o un directorio",
            .exitCode 2], fs)
  else if given a.input && given a.directory then
    (t0 ++ [.argError "No puede especificar tanto un archivo como un directorio",
            .exitCode 2], fs)
  else
    let c : DoclingConverter := { use_ocr := a.ocr, engine := mkEngine a.ocr }
    let t1 := t0 ++ [Action.constructConverter a.ocr]
    if given a.input then
      match c.convert_file fs (a.input.getD "") a.output with
      | (_, .ok (fs2, out)) =>
        let t2 := t1 ++ [Action.printLine ("Conversión completada: " ++ out)]
        let t3 := if a.verbose then t2 ++ [Action.printFormats c.get_supported_formats] else t2
        (t3 ++ [Action.exitCode 0], fs2)
      | (_, .error _) => (t1 ++ [Action.exitCode 1], fs)
    else
      match c.convert_multiple_files fs (a.directory.getD "") a.output_dir (some a.extensions) with
      | (_, .ok (fs2, res)) =>
        let t2 := t1
          ++ [Action.printLine ("Conversión masiva completada: " ++ toString res.length
                ++ " archivos convertidos")]
          ++ res.map (fun r => Action.printLine ("  - " ++ r))
        let t3 := if a.verbose then t2 ++ [Action.printFormats c.get_supported_formats] else t2
        (t3 ++ [Action.exitCode 0], fs2)
      | (_, .error _) => (t1 ++ [Action.exitCode 1], fs)

/-! ### Concrete instances used by witnesses and counterexamples -/

/-- One-file filesystem for the single-file conversion witness. -/
def fsC1 : FS := ⟨[("report.pdf", "raw")], []⟩

/-- Converter whose engine renders only `report.pdf`. -/
def cC1 : DoclingConverter :=
  ⟨false, fun p => if p == "report.pdf" then some "MD" else none⟩

/-- Two-file batch filesystem for the single-failure witness. -/
def fsC2 : FS := ⟨[("docs/a.pdf", "A"), ("docs/b.pdf", "B")], ["docs"]⟩

/-- Converter whose engine fails on every input except `docs/a.pdf`. -/
def cC2 : DoclingConverter :=
  ⟨false, fun p => if p == "docs/a.pdf" then some "MD" else none⟩

/-- One-file batch filesystem for the default-output-directory witness. -/
def fsC4 : FS := ⟨[("docs/a.pdf", "A")], ["docs"]⟩

/-- Converter whose engine always fails. -/
def cC4 : DoclingConverter := ⟨false, fun _ => none⟩

/-- Batch filesystem for the enumeration-order witness. -/
def fsC5 : FS := ⟨[("docs/a.pdf", "A"), ("docs/b.docx", "B")], ["docs", "out"]⟩

/-- Converter whose engine always succeeds. -/
def cC5 : DoclingConverter := ⟨false, fun _ => some "MD"⟩

/-- CLI invocation that provides neither input nor directory. -/
def argsC6 : Args := ⟨none, none, none, none, false, [], false⟩

/-- Verbose CLI invocation that provides neither input nor directory. -/
def argsC7 : Args := ⟨none, none, none, none, false, [], true⟩

/-- First same-stem input file of the overwrite scenario. -/
def p1C9 (s : String) : String := "docs" ++ "/" ++ (s ++ ".pdf")

/-- Second same-stem input file of the overwrite scenario. -/
def p2C9 (s : String) : String := "docs" ++ "/" ++ (s ++ ".docx")

/-- Shared batch output path of the overwrite scenario. -/
def wC9 (s : String) : String := "out" ++ "/" ++ (s ++ ".md")

/-- Filesystem of the overwrite scenario: two files with the same stem and
different extensions in `docs`, plus the two directories. -/
def fsC9 (s x y : String) : FS := ⟨[(p1C9 s, x), (p2C9 s, y)], ["docs", "out"]⟩

/-- Engine of the overwrite scenario: renders `m1` for the `.pdf` input
and `m2` for the `.docx` input. -/
def engC9 (s m1 m2 : String) : String → Option String := fun p =>
  if p == p1C9 s then some m1 else if p == p2C9 s then some m2 else none

/-! ### Generic helper lemmas -/

theorem toList_append (s t : String) : (s ++ t).toList = s.toList ++ t.toList := rfl

theorem find?_update (l : List (String × String)) (p content : String)
    (h : l.any (fun e => e.1 == p) = true) :
    (l.map (fun e => if e.1 == p then (p, content) else e)).find? (fun e => e.1 == p)
      = some (p, content) := by
  induction l with
  | nil => simp at h
  | cons x xs ih =>
    by_cases hx : (x.1 == p) = true
    · rw [List.map_cons, if_pos hx]
      exact List.find?_cons_of_pos _ (by simp)
    · have h2 : xs.any (fun e => e.1 == p) = true := by
        rw [Bool.not_eq_true] at hx
        simp only [List.any_cons, hx, Bool.false_or] at h
        exact h
      rw [List.map_cons, if_neg hx]
      exact (List.find?_cons_of_neg _ (by simpa using hx)).trans (ih h2)

theorem find?_absent (l : List (String × String)) (p content : String)
    (h : l.any (fun e => e.1 == p) = false) :
    (l ++ [(p, content)]).find? (fun e => e.1 == p) = some (p, content) := by
  rw [List.find?_append]
  have hl : l.find? (fun e => e.1 == p) = none := by
    rw [List.find?_eq_none]
    intro x hx
    rw [List.any_eq_false] at h
    exact fun hc => (h x hx) hc
  simp [hl]

/-- Writing a file makes its content readable at exactly that path. -/
theorem readFile_writeFile (fs : FS) (p content : String) :
    (fs.writeFile p content).readFile p = some content := by
  unfold FS.writeFile FS.readFile
  by_cases h : fs.files.any (fun e => e.1 == p)
  · simp only [h, if_true, find?_update fs.files p content h]
    rfl
  · rw [Bool.not_eq_true] at h
    simp only [h, Bool.false_eq_true, if_false, find?_absent fs.files p content h]
    rfl

/-! ### Path lemmas -/

theorem splitLastSlash_of_not_mem (p : List Char) (h : '/' ∉ p) :
    splitLastSlash p = none := by
  induction p with
  | nil => rfl
  | cons c cs ih =>
    simp only [List.mem_cons, not_or] at h
    obtain ⟨h1, h2⟩ := h
    unfold splitLastSlash
    rw [ih h2]
    exact if_neg (fun hc => h1 hc.symm)

theorem splitLastSlash_append (d n : List Char) (h : '/' ∉ n) :
    splitLastSlash (d ++ '/' :: n) = some (d, n) := by
  induction d with
  | nil =>
    show splitLastSlash ('/' :: n) = some ([], n)
    unfold splitLastSlash
    rw [splitLastSlash_of_not_mem n h]
    exact if_pos rfl
  | cons c cs ih =>
    rw [List.cons_append]
    unfold splitLastSlash
    rw [ih]

theorem not_mem_of_splitLastSlash_none (p : List Char) (h : splitLastSlash p = none) :
    '/' ∉ p := by
  induction p with
  | nil => simp
  | cons c cs ih =>
    intro hm
    unfold splitLastSlash at h
    cases hsp : splitLastSlash cs with
    | some dn =>
      rw [hsp] at h
      exact Option.noConfusion h
    | none =>
      rw [hsp] at h
      by_cases hc : c = '/'
      · rw [if_pos hc] at h
        exact Option.noConfusion h
      · rcases List.mem_cons.mp hm with h1 | h1
        · exact hc h1.symm
        · exact ih hsp h1

theorem not_mem_of_splitLastSlash_some (p : List Char) :
    ∀ d n, splitLastSlash p = some (d, n) → '/' ∉ n := by
  induction p with
  | nil => intro d n h; exact Option.noConfusion h
  | cons c cs ih =>
    intro d n h
    unfold splitLastSlash at h
    cases hsp : splitLastSlash cs with
    | some dn =>
      obtain ⟨d0, n0⟩ := dn
      rw [hsp] at h
      simp only [Option.some.injEq, Prod.mk.injEq] at h
      obtain ⟨h1, h2⟩ := h
      subst h2
      exact ih d0 n0 hsp
    | none =>
      rw [hsp] at h
      by_cases hc : c = '/'
      · rw [if_pos hc] at h
        simp only [Option.some.injEq, Prod.mk.injEq] at h
        obtain ⟨h1, h2⟩ := h
        subst h2
        exact not_mem_of_splitLastSlash_none cs hsp
      · rw [if_neg hc] at h
        exact Option.noConfusion h

theorem not_mem_baseNameL (p : List Char) : '/' ∉ baseNameL p := by
  unfold baseNameL
  cases hsp : splitLastSlash p with
  | some dn =>
    obtain ⟨d0, n0⟩ := dn
    exact not_mem_of_splitLastSlash_some p d0 n0 hsp
  | none => exact not_mem_of_splitLastSlash_none p hsp

theorem fst_splitExtName_subset (n : List Char) : (splitExtName n).1 ⊆ n := by
  unfold splitExtName
  cases rfindDot n with
  | some i =>
    show (if 0 < i ∧ i + 1 < n.length then (n.take i, n.drop i) else (n, [])).1 ⊆ n
    by_cases hc : 0 < i ∧ i + 1 < n.length
    · rw [if_pos hc]
      exact List.take_subset i n
    · rw [if_neg hc]
      exact fun a ha => ha
  | none => exact fun a ha => ha

theorem not_mem_stem_toList (p : String) : '/' ∉ (stemOf p).toList := by
  intro hm
  exact not_mem_baseNameL p.toList (fst_splitExtName_subset (baseNameL p.toList) hm)

theorem matchesIn_append (dir ext od rest : String) (h : '/' ∉ rest.toList) :
    matchesIn dir ext (od ++ "/" ++ rest)
      = (od.toList == dir.toList && ext.toList.isSuffixOf rest.toList) := by
  unfold matchesIn
  have he : (od ++ "/" ++ rest).toList = od.toList ++ '/' :: rest.toList := by
    rw [toList_append, toList_append, List.append_assoc]
    rfl
  rw [he, splitLastSlash_append od.toList rest.toList h]

theorem matchesIn_ne_dir (dir ext od rest : String) (hod : od ≠ dir)
    (h : '/' ∉ rest.toList) :
    matchesIn dir ext (od ++ "/" ++ rest) = false := by
  rw [matchesIn_append dir ext od rest h]
  have hb : (od.toList == dir.toList) = false := by
    rw [beq_eq_false_iff_ne]
    intro hc
    apply hod
    cases od
    cases dir
    exact congrArg String.mk hc
  rw [hb, Bool.false_and]

theorem matchesIn_outPath (dir ext od p : String) (hod : od ≠ dir) :
    matchesIn dir ext (outPath od p) = false := by
  unfold outPath
  apply matchesIn_ne_dir dir ext od (stemOf p ++ ".md") hod
  rw [toList_append]
  intro hm
  rcases List.mem_append.mp hm with h1 | h1
  · exact not_mem_stem_toList p h1
  · exact absurd h1 (by decide)

theorem rfindDot_of_not_mem (r : List Char) (h : '.' ∉ r) : rfindDot r = none := by
  induction r with
  | nil => rfl
  | cons c cs ih =>
    simp only [List.mem_cons, not_or] at h
    obtain ⟨h1, h2⟩ := h
    unfold rfindDot
    rw [ih h2]
    exact if_neg (fun hc => h1 hc.symm)

theorem rfindDot_append (l tail : List Char) (h : '.' ∉ tail) :
    rfindDot (l ++ '.' :: tail) = some l.length := by
  induction l with
  | nil =>
    show rfindDot ('.' :: tail) = some 0
    unfold rfindDot
    rw [rfindDot_of_not_mem tail h]
    exact if_pos rfl
  | cons c cs ih =>
    rw [List.cons_append]
    unfold rfindDot
    rw [ih]
    rfl

theorem asString_toList (s : String) : s.toList.asString = s := by
  cases s
  rfl

/-- Stem of a path of the form `dir ++ "/" ++ (s ++ "." ++ tail)` where the
extension part contains no further dot: the stem is exactly `s`. -/
theorem stemOf_dir_name (dir s : String) (tail : List Char)
    (hs1 : s.toList ≠ []) (hs2 : '/' ∉ s.toList)
    (ht1 : '.' ∉ tail) (ht2 : '/' ∉ tail) (ht3 : tail ≠ []) :
    stemOf (dir ++ "/" ++ (s ++ ('.' :: tail).asString)) = s := by
  unfold stemOf
  have hname : (dir ++ "/" ++ (s ++ ('.' :: tail).asString)).toList
      = dir.toList ++ '/' :: (s.toList ++ '.' :: tail) := by
    rw [toList_append, toList_append, List.append_assoc]
    rfl
  rw [hname]
  have hrest : '/' ∉ s.toList ++ '.' :: tail := by
    intro hm
    rcases List.mem_append.mp hm with h | h
    · exact hs2 h
    · rcases List.mem_cons.mp h with h | h
      · exact absurd h (by decide)
      · exact ht2 h
  have hbase : baseNameL (dir.toList ++ '/' :: (s.toList ++ '.' :: tail))
      = s.toList ++ '.' :: tail := by
    unfold baseNameL
    rw [splitLastSlash_append dir.toList _ hrest]
  have hc : 0 < s.toList.length ∧ s.toList.length + 1 < (s.toList ++ '.' :: tail).length := by
    refine ⟨List.length_pos.mpr hs1, ?_⟩
    rw [List.length_append, List.length_cons]
    have := List.length_pos.mpr ht3
    omega
  have hsplit : splitExtName (s.toList ++ '.' :: tail) = (s.toList, '.' :: tail) := by
    unfold splitExtName
    rw [rfindDot_append s.toList tail ht1]
    show (if 0 < s.toList.length ∧ s.toList.length + 1 < (s.toList ++ '.' :: tail).length
        then ((s.toList ++ '.' :: tail).take s.toList.length,
          (s.toList ++ '.' :: tail).drop s.toList.length)
        else (s.toList ++ '.' :: tail, [])) = (s.toList, '.' :: tail)
    rw [if_pos hc, List.take_left s.toList ('.' :: tail), List.drop_left s.toList ('.' :: tail)]
  rw [hbase, hsplit]
  exact asString_toList s

theorem isSuffixOf_append_self (e l : List Char) : e.isSuffixOf (l ++ e) = true := by
  simp [List.isSuffixOf]

theorem pdf_not_sfx_docx (l : List Char) :
    ".pdf".toList.isSuffixOf (l ++ ".docx".toList) = false := by
  show ".pdf".toList.reverse.isPrefixOf (l ++ ".docx".toList).reverse = false
  rw [List.reverse_append]
  show List.isPrefixOf ['f', 'd', 'p', '.'] ('x' :: 'c' :: 'o' :: 'd' :: '.' :: l.reverse)
      = false
  simp [List.isPrefixOf]

theorem docx_not_sfx_pdf (l : List Char) :
    ".docx".toList.isSuffixOf (l ++ ".pdf".toList) = false := by
  show ".docx".toList.reverse.isPrefixOf (l ++ ".pdf".toList).reverse = false
  rw [List.reverse_append]
  show List.isPrefixOf ['x', 'c', 'o', 'd', '.'] ('f' :: 'd' :: 'p' :: '.' :: l.reverse)
      = false
  simp [List.isPrefixOf]

/-! ### Filesystem lemmas -/

theorem map_fst_update (l : List (String × String)) (q c : String) :
    (l.map (fun e => if e.1 == q then (q, c) else e)).map (fun e => e.1)
      = l.map (fun e => e.1) := by
  rw [List.map_map]
  apply List.map_congr_left
  intro e he
  by_cases hq : (e.1 == q) = true
  · have h2 : e.1 = q := by simpa using hq
    simp [Function.comp, hq, h2]
  · rw [Bool.not_eq_true] at hq
    simp [Function.comp, hq]

theorem writeFile_dirs (fs : FS) (p c : String) : (fs.writeFile p c).dirs = fs.dirs := by
  unfold FS.writeFile
  by_cases h : fs.files.any (fun e => e.1 == p) <;> simp [h]

theorem globDir_writeFile (fs : FS) (q c dir ext : String)
    (h : matchesIn dir ext q = false) :
    (fs.writeFile q c).globDir dir ext = fs.globDir dir ext := by
  unfold FS.writeFile FS.globDir
  by_cases hq : fs.files.any (fun e => e.1 == q)
  · simp only [hq, if_true, map_fst_update]
  · rw [Bool.not_eq_true] at hq
    simp only [hq, Bool.false_eq_true, if_false, List.map_append, List.filter_append]
    simp [h]

theorem any_fst_eq_map (l : List (String × String)) (r : String) :
    l.any (fun e => e.1 == r) = (l.map (fun e => e.1)).any (fun x => x == r) := by
  induction l with
  | nil => rfl
  | cons x xs ih => simp [List.any_cons, ih]

theorem pathExists_writeFile (fs : FS) (q c r : String) (h : fs.pathExists r = true) :
    (fs.writeFile q c).pathExists r = true := by
  unfold FS.pathExists FS.writeFile at *
  by_cases hq : fs.files.any (fun e => e.1 == q)
  · simp only [hq, if_true]
    rw [any_fst_eq_map, map_fst_update, ← any_fst_eq_map]
    exact h
  · rw [Bool.not_eq_true] at hq
    simp only [hq, Bool.false_eq_true, if_false, List.any_append]
    rcases Bool.or_eq_true_iff.mp h with h1 | h1
    · simp [h1]
    · simp [h1]

theorem mkdir_pathExists (fs : FS) (q : String) : (fs.mkdir q).pathExists q = true := by
  unfold FS.mkdir FS.pathExists
  by_cases h : fs.dirs.any (fun d => d == q)
  · simp [h]
  · rw [Bool.not_eq_true] at h
    simp [h, List.any_append]

theorem mkdir_idem (fs : FS) (q : String) : (fs.mkdir q).mkdir q = fs.mkdir q := by
  unfold FS.mkdir
  by_cases h : fs.dirs.any (fun d => d == q)
  · simp [h]
  · rw [Bool.not_eq_true] at h
    simp [h, List.any_append]

theorem globDir_mem_pathExists (fs : FS) (dir ext p : String)
    (h : p ∈ fs.globDir dir ext) : fs.pathExists p = true := by
  unfold FS.globDir at h
  rw [List.mem_filter] at h
  rcases List.mem_append.mp h.1 with h1 | h1
  · obtain ⟨e, he, hep⟩ := List.mem_map.mp h1
    have h2 : fs.files.any (fun e => e.1 == p) = true := by
      rw [List.any_eq_true]
      exact ⟨e, he, by simp [hep]⟩
    simp [FS.pathExists, h2]
  · have h2 : fs.dirs.any (fun d => d == p) = true := by
      rw [List.any_eq_true]
      exact ⟨p, h1, by simp⟩
    simp [FS.pathExists, h2]

/-! ### Batch loop characterisation -/

theorem batchFileStep_engine_some (c : DoclingConverter) (od : String) (st : BatchSt)
    (p md : String) (hex : st.fs.pathExists p = true) (hmd : c.engine p = some md) :
    batchFileStep c od st p =
      { fs := st.fs.writeFile (outPath od p) md,
        log := st.log ++ eventsFor c od p,
        converted := st.converted ++ [outPath od p] } := by
  simp [batchFileStep, DoclingConverter.convert_file, eventsFor, hex, hmd]

theorem batchFileStep_engine_none (c : DoclingConverter) (od : String) (st : BatchSt)
    (p : String) (hex : st.fs.pathExists p = true) (hmd : c.engine p = none) :
    batchFileStep c od st p =
      { fs := st.fs, log := st.log ++ eventsFor c od p, converted := st.converted } := by
  simp [batchFileStep, DoclingConverter.convert_file, eventsFor, hex, hmd]

theorem foldl_batchFileStep (c : DoclingConverter) (od : String) :
    ∀ (L : List String) (st : BatchSt),
      (∀ p ∈ L, st.fs.pathExists p = true) →
      (L.foldl (batchFileStep c od) st).converted
          = st.converted
            ++ (L.filter (fun p => (c.engine p).isSome)).map (fun p => outPath od p)
        ∧ (L.foldl (batchFileStep c od) st).log = st.log ++ L.flatMap (eventsFor c od)
        ∧ (∀ dir ext, od ≠ dir →
            (L.foldl (batchFileStep c od) st).fs.globDir dir ext = st.fs.globDir dir ext)
        ∧ (L.foldl (batchFileStep c od) st).fs.dirs = st.fs.dirs
        ∧ (∀ q, st.fs.pathExists q = true →
            (L.foldl (batchFileStep c od) st).fs.pathExists q = true) := by
  intro L
  induction L with
  | nil =>
    intro st h
    exact ⟨by simp, by simp, fun dir ext hod => rfl, rfl, fun q hq => hq⟩
  | cons p L ih =>
    intro st h
    have hex : st.fs.pathExists p = true := h p (List.mem_cons_self p L)
    rw [List.foldl_cons]
    cases hmd : c.engine p with
    | some md =>
      rw [batchFileStep_engine_some c od st p md hex hmd]
      obtain ⟨ih1, ih2, ih3, ih4, ih5⟩ := ih
        { fs := st.fs.writeFile (outPath od p) md,
          log := st.log ++ eventsFor c od p,
          converted := st.converted ++ [outPath od p] }
        (fun q hq => pathExists_writeFile _ _ _ _ (h q (List.mem_cons_of_mem p hq)))
      refine ⟨?_, ?_, ?_, ?_, ?_⟩
      · rw [ih1]
        simp [List.filter_cons, hmd, List.append_assoc]
      · rw [ih2]
        simp [List.flatMap_cons, List.append_assoc]
      · intro dir ext hod
        rw [ih3 dir ext hod]
        exact globDir_writeFile _ _ _ _ _ (matchesIn_outPath dir ext od p hod)
      · rw [ih4]
        exact writeFile_dirs _ _ _
      · intro q hq
        exact ih5 q (pathExists_writeFile _ _ _ _ hq)
    | none =>
      rw [batchFileStep_engine_none c od st p hex hmd]
      obtain ⟨ih1, ih2, ih3, ih4, ih5⟩ := ih
        { fs := st.fs, log := st.log ++ eventsFor c od p, converted := st.converted }
        (fun q hq => h q (List.mem_cons_of_mem p hq))
      refine ⟨?_, ?_, ?_, ?_, ?_⟩
      · rw [ih1]
        simp [List.filter_cons, hmd]
      · rw [ih2]
        simp [List.flatMap_cons, List.append_assoc]
      · intro dir ext hod
        exact ih3 dir ext hod
      · exact ih4
      · exact ih5

theorem batchRun_cons (c : DoclingConverter) (od dir ext : String) (es : List String)
    (st : BatchSt) :
    batchRun c od dir (ext :: es) st
      = batchRun c od dir es ((st.fs.globDir dir ext).foldl (batchFileStep c od) st) :=
  rfl

theorem batchRun_spec (c : DoclingConverter) (od dir : String) (hod : od ≠ dir) :
    ∀ (es : List String) (st : BatchSt),
      (batchRun c od dir es st).converted
          = st.converted
            ++ es.flatMap (fun ext =>
              ((st.fs.globDir dir ext).filter (fun p => (c.engine p).isSome)).map
                (fun p => outPath od p))
        ∧ (batchRun c od dir es st).log
          = st.log ++ es.flatMap (fun ext => (st.fs.globDir dir ext).flatMap (eventsFor c od))
        ∧ (∀ ext2, (batchRun c od dir es st).fs.globDir dir ext2 = st.fs.globDir dir ext2)
        ∧ (batchRun c od dir es st).fs.dirs = st.fs.dirs
        ∧ (∀ q, st.fs.pathExists q = true → (batchRun c od dir es st).fs.pathExists q = true) := by
  intro es
  induction es with
  | nil =>
    intro st
    exact ⟨by simp [batchRun], by simp [batchRun], fun ext2 => rfl, rfl, fun q hq => hq⟩
  | cons ext es ih =>
    intro st
    rw [batchRun_cons]
    obtain ⟨f1, f2, f3, f4, f5⟩ := foldl_batchFileStep c od (st.fs.globDir dir ext) st
      (fun p hp => globDir_mem_pathExists st.fs dir ext p hp)
    have f3d : ∀ ext2, ((st.fs.globDir dir ext).foldl (batchFileStep c od) st).fs.globDir dir ext2
        = st.fs.globDir dir ext2 := fun ext2 => f3 dir ext2 hod
    obtain ⟨g1, g2, g3, g4, g5⟩ := ih ((st.fs.globDir dir ext).foldl (batchFileStep c od) st)
    refine ⟨?_, ?_, ?_, ?_, ?_⟩
    · rw [g1, f1]
      simp only [f3d]
      simp [List.flatMap_cons, List.append_assoc]
    · rw [g2, f2]
      simp only [f3d]
      simp [List.flatMap_cons, List.append_assoc]
    · intro ext2
      rw [g3 ext2, f3d ext2]
    · rw [g4, f4]
    · intro q hq
      exact g5 q (f5 q hq)

/-- Full characterisation of `convert_multiple_files` on an existing input
directory whose resolved output directory is distinct from it: the batch
enumerates, per extension in order, the matching entries of the input
directory (after the output directory has been created), converts each,
collects the successful output paths in that order and logs every
attempt. -/
theorem convert_multiple_files_spec (c : DoclingConverter) (fs : FS) (input_dir : String)
    (odO : Option String) (extsO : Option (List String))
    (hdir : fs.pathExists input_dir = true)
    (hsep : resolvedOutDir input_dir odO ≠ input_dir) :
    ∃ fsF,
      c.convert_multiple_files fs input_dir odO extsO =
        ((extsO.getD defaultFileExtensions).flatMap (fun ext =>
            ((fs.mkdir (resolvedOutDir input_dir odO)).globDir input_dir ext).flatMap
              (eventsFor c (resolvedOutDir input_dir odO))),
          .ok (fsF, (extsO.getD defaultFileExtensions).flatMap (fun ext =>
            (((fs.mkdir (resolvedOutDir input_dir odO)).globDir input_dir ext).filter
                (fun p => (c.engine p).isSome)).map
              (fun p => outPath (resolvedOutDir input_dir odO) p))))
      ∧ fsF.dirs = (fs.mkdir (resolvedOutDir input_dir odO)).dirs
      ∧ (∀ q, (fs.mkdir (resolvedOutDir input_dir odO)).pathExists q = true →
          fsF.pathExists q = true) := by
  obtain ⟨g1, g2, g3, g4, g5⟩ := batchRun_spec c (resolvedOutDir input_dir odO) input_dir hsep
    (extsO.getD defaultFileExtensions)
    { fs := fs.mkdir (resolvedOutDir input_dir odO), log := [], converted := [] }
  refine ⟨(batchRun c (resolvedOutDir input_dir odO) input_dir (extsO.getD defaultFileExtensions)
      { fs := fs.mkdir (resolvedOutDir input_dir odO), log := [], converted := [] }).fs,
    ?_, g4, g5⟩
  unfold DoclingConverter.convert_multiple_files
  simp only [hdir, if_true]
  rw [Prod.mk.injEq]
  constructor
  · rw [g2]
    simp
  · rw [Except.ok.injEq, Prod.mk.injEq]
    exact ⟨rfl, by rw [g1]; simp⟩

/-! ### Counting lemmas for the batch log -/

theorem countErrBatch_append (l1 l2 : List LogEvent) :
    countErrBatch (l1 ++ l2) = countErrBatch l1 + countErrBatch l2 :=
  List.countP_append _ l1 l2

theorem countErrBatch_eventsFor (c : DoclingConverter) (od : String) (L : List String) :
    countErrBatch (L.flatMap (eventsFor c od))
      = (L.filter (fun p => (c.engine p).isNone)).length := by
  induction L with
  | nil => rfl
  | cons p L ih =>
    rw [List.flatMap_cons, countErrBatch_append, ih]
    cases hmd : c.engine p with
    | some md => simp [eventsFor, hmd, countErrBatch, List.filter_cons]
    | none =>
      simp [eventsFor, hmd, countErrBatch, List.filter_cons]
      omega

theorem length_filter_isSome_isNone (c : DoclingConverter) (L : List String) :
    (L.filter (fun p => (c.engine p).isSome)).length
      + (L.filter (fun p => (c.engine p).isNone)).length = L.length := by
  induction L with
  | nil => rfl
  | cons p L ih =>
    cases hmd : c.engine p
    · simp [List.filter_cons, hmd]
      omega
    · simp [List.filter_cons, hmd]
      omega

theorem length_flatMap_filtered (c : DoclingConverter) (od : String)
    (g : String → List String) :
    ∀ es : List String,
      (es.flatMap (fun ext =>
          ((g ext).filter (fun p => (c.engine p).isSome)).map (fun p => outPath od p))).length
        + (es.flatMap (fun ext => (g ext).filter (fun p => (c.engine p).isNone))).length
      = (es.flatMap g).length := by
  intro es
  induction es with
  | nil => rfl
  | cons e es ih =>
    simp only [List.flatMap_cons, List.length_append, List.length_map]
    have h2 := length_filter_isSome_isNone c (g e)
    omega

theorem countErrBatch_batch (c : DoclingConverter) (od : String) (g : String → List String) :
    ∀ es : List String,
      countErrBatch (es.flatMap (fun ext => (g ext).flatMap (eventsFor c od)))
        = (es.flatMap (fun ext => (g ext).filter (fun p => (c.engine p).isNone))).length := by
  intro es
  induction es with
  | nil => rfl
  | cons e es ih =>
    rw [List.flatMap_cons, countErrBatch_append, ih, countErrBatch_eventsFor,
      List.flatMap_cons, List.length_append]

theorem filter_flatMap (g : String → List String) (q : String → Bool) :
    ∀ es : List String,
      (es.flatMap g).filter q = es.flatMap (fun e => (g e).filter q) := by
  intro es
  induction es with
  | nil => rfl
  | cons e es ih => rw [List.flatMap_cons, List.filter_append, ih, List.flatMap_cons]

theorem append_str_ne (s t : String) (h : t.toList ≠ []) : s ++ t ≠ s := by
  intro he
  have h2 : (s ++ t).toList = s.toList := congrArg String.toList he
  rw [toList_append] at h2
  have h3 := congrArg List.length h2
  rw [List.length_append] at h3
  have h4 : t.toList.length = 0 := by omega
  exact h (List.length_eq_zero.mp h4)

/-! ### Claim C2 -/

/-- Claim C2: in a batch over an existing directory (with the output
directory distinct from the input directory, as in every default run),
every per-file failure is logged by the loop and the file skipped while
the batch continues: the successful results are exactly the engine
successes of the whole enumeration, in order; in particular when exactly
one of the N enumerated files fails, the result list has N-1 entries and
exactly one per-file failure is logged. -/
theorem batch_one_failure_skipped (c : DoclingConverter) (fs : FS) (input_dir od : String)
    (exts : List String) (hdir : fs.pathExists input_dir = true) (hsep : od ≠ input_dir)
    (hfail : ((exts.flatMap (fun ext => (fs.mkdir od).globDir input_dir ext)).filter
        (fun p => (c.engine p).isNone)).length = 1) :
    ∃ fsF res log,
      c.convert_multiple_files fs input_dir (some od) (some exts) = (log, .ok (fsF, res))
      ∧ res = exts.flatMap (fun ext =>
          (((fs.mkdir od).globDir input_dir ext).filter (fun p => (c.engine p).isSome)).map
            (fun p => outPath od p))
      ∧ countErrBatch log = 1
      ∧ res.length + 1
        = (exts.flatMap (fun ext => (fs.mkdir od).globDir input_dir ext)).length := by
  obtain ⟨fsF, h1, _, _⟩ :=
    convert_multiple_files_spec c fs input_dir (some od) (some exts) hdir hsep
  simp only [Option.getD_some, resolvedOutDir] at h1
  rw [filter_flatMap] at hfail
  refine ⟨fsF, _, _, h1, rfl, ?_, ?_⟩
  · rw [countErrBatch_batch c od (fun ext => (fs.mkdir od).globDir input_dir ext) exts]
    exact hfail
  · have h2 := length_flatMap_filtered c od
      (fun ext => (fs.mkdir od).globDir input_dir ext) exts
    rw [hfail] at h2
    exact h2

theorem batch_one_failure_skipped_witness :
    ∃ fsF res log,
      cC2.convert_multiple_files fsC2 "docs" (some "out") (some [".pdf"]) = (log, .ok (fsF, res))
      ∧ res = [".pdf"].flatMap (fun ext =>
          (((fsC2.mkdir "out").globDir "docs" ext).filter (fun p => (cC2.engine p).isSome)).map
            (fun p => outPath "out" p))
      ∧ countErrBatch log = 1
      ∧ res.length + 1
        = ([".pdf"].flatMap (fun ext => (fsC2.mkdir "out").globDir "docs" ext)).length :=
  batch_one_failure_skipped cC2 fsC2 "docs" "out" [".pdf"] (by decide) (by decide) (by decide)

/-! ### Claim C4 -/

/-- Claim C4: when no output directory is given, the batch uses the fixed
subdirectory `markdown_output` of the input directory, creates it (the
creation is idempotent) before any file is converted, and derives each
output as `output_dir ++ "/" ++ (stem ++ ".md")`; the directory exists in
the final filesystem even when every conversion fails. -/
theorem batch_default_output_dir (c : DoclingConverter) (fs : FS) (input_dir : String)
    (exts : List String) (hdir : fs.pathExists input_dir = true) :
    ∃ fsF,
      c.convert_multiple_files fs input_dir none (some exts) =
        (exts.flatMap (fun ext =>
            ((fs.mkdir (input_dir ++ "/markdown_output")).globDir input_dir ext).flatMap
              (eventsFor c (input_dir ++ "/markdown_output"))),
          .ok (fsF, exts.flatMap (fun ext =>
            (((fs.mkdir (input_dir ++ "/markdown_output")).globDir input_dir ext).filter
                (fun p => (c.engine p).isSome)).map
              (fun p => (input_dir ++ "/markdown_output") ++ "/" ++ (stemOf p ++ ".md")))))
      ∧ fsF.pathExists (input_dir ++ "/markdown_output") = true
      ∧ (fs.mkdir (input_dir ++ "/markdown_output")).mkdir (input_dir ++ "/markdown_output")
          = fs.mkdir (input_dir ++ "/markdown_output") := by
  have hsep : resolvedOutDir input_dir none ≠ input_dir :=
    append_str_ne input_dir "/markdown_output" (by decide)
  obtain ⟨fsF, h1, h2, h3⟩ :=
    convert_multiple_files_spec c fs input_dir none (some exts) hdir hsep
  exact ⟨fsF, h1, h3 _ (mkdir_pathExists fs (input_dir ++ "/markdown_output")),
    mkdir_idem fs (input_dir ++ "/markdown_output")⟩

theorem batch_default_output_dir_witness :
    ∃ fsF,
      cC4.convert_multiple_files fsC4 "docs" none (some [".pdf"]) =
        ([".pdf"].flatMap (fun ext =>
            ((fsC4.mkdir ("docs" ++ "/markdown_output")).globDir "docs" ext).flatMap
              (eventsFor cC4 ("docs" ++ "/markdown_output"))),
          .ok (fsF, [".pdf"].flatMap (fun ext =>
            (((fsC4.mkdir ("docs" ++ "/markdown_output")).globDir "docs" ext).filter
                (fun p => (cC4.engine p).isSome)).map
              (fun p => ("docs" ++ "/markdown_output") ++ "/" ++ (stemOf p ++ ".md")))))
      ∧ fsF.pathExists ("docs" ++ "/markdown_output") = true
      ∧ (fsC4.mkdir ("docs" ++ "/markdown_output")).mkdir ("docs" ++ "/markdown_output")
          = fsC4.mkdir ("docs" ++ "/markdown_output") :=
  batch_default_output_dir cC4 fsC4 "docs" [".pdf"] (by decide)

/-! ### Claim C5 -/

/-- Claim C5: the successful output paths of a batch are collected
extension-major: the extension list is traversed in the given order, the
matching entries are enumerated within each extension, and an entry whose
name matches several of the given extension patterns is converted once per
matching extension (the flatMap below introduces one occurrence per
match, with no deduplication). -/
theorem batch_extension_major_order (c : DoclingConverter) (fs : FS) (input_dir od : String)
    (exts : List String) (hdir : fs.pathExists input_dir = true) (hsep : od ≠ input_dir) :
    ∃ fsF,
      c.convert_multiple_files fs input_dir (some od) (some exts) =
        (exts.flatMap (fun ext =>
            ((fs.mkdir od).globDir input_dir ext).flatMap (eventsFor c od)),
          .ok (fsF, exts.flatMap (fun ext =>
            (((fs.mkdir od).globDir input_dir ext).filter (fun p => (c.engine p).isSome)).map
              (fun p => outPath od p)))) := by
  obtain ⟨fsF, h1, _, _⟩ :=
    convert_multiple_files_spec c fs input_dir (some od) (some exts) hdir hsep
  exact ⟨fsF, h1⟩

theorem batch_extension_major_order_witness :
    ∃ fsF,
      cC5.convert_multiple_files fsC5 "docs" (some "out") (some [".docx", ".pdf", "f"]) =
        ([".docx", ".pdf", "f"].flatMap (fun ext =>
            ((fsC5.mkdir "out").globDir "docs" ext).flatMap (eventsFor cC5 "out")),
          .ok (fsF, [".docx", ".pdf", "f"].flatMap (fun ext =>
            (((fsC5.mkdir "out").globDir "docs" ext).filter
                (fun p => (cC5.engine p).isSome)).map
              (fun p => outPath "out" p)))) :=
  batch_extension_major_order cC5 fsC5 "docs" "out" [".docx", ".pdf", "f"]
    (by decide) (by decide)

/-! ### Claim C8 -/

/-- Claim C8: the supported-format query always returns the same fixed,
non-empty set of extensions, and that set contains at least `.pdf`,
`.docx`, and `.pptx`. -/
theorem supported_formats_fixed_set :
    (∀ c : DoclingConverter, c.get_supported_formats = supportedFormatsList)
    ∧ supportedFormatsList ≠ []
    ∧ ".pdf" ∈ supportedFormatsList
    ∧ ".docx" ∈ supportedFormatsList
    ∧ ".pptx" ∈ supportedFormatsList :=
  ⟨fun _ => rfl, by decide, by decide, by decide, by decide⟩

/-! ### Claim C10 -/

/-- Claim C10: the supported-format list strictly contains the default
batch extension list; `.html` and `.txt` are supported but absent from the
defaults; a batch run that is given no extension list uses exactly the
default list, so every entry it enumerates matches one of the default
extensions. -/
theorem supported_superset_defaults :
    (∀ e ∈ defaultFileExtensions, e ∈ supportedFormatsList)
    ∧ ".html" ∈ supportedFormatsList
    ∧ ".txt" ∈ supportedFormatsList
    ∧ ".html" ∉ defaultFileExtensions
    ∧ ".txt" ∉ defaultFileExtensions
    ∧ (∀ (c : DoclingConverter) (fs : FS) (d : String) (odO : Option String),
        c.convert_multiple_files fs d odO none
          = c.convert_multiple_files fs d odO (some defaultFileExtensions))
    ∧ (∀ (fs : FS) (input_dir p : String),
        p ∈ defaultFileExtensions.flatMap (fun ext => fs.globDir input_dir ext) →
        ∃ e ∈ defaultFileExtensions, matchesIn input_dir e p = true) := by
  refine ⟨by decide, by decide, by decide, by decide, by decide,
    fun c fs d odO => rfl, ?_⟩
  intro fs input_dir p hp
  simp only [List.mem_flatMap] at hp
  obtain ⟨e, he, hpe⟩ := hp
  refine ⟨e, he, ?_⟩
  simp only [FS.globDir, List.mem_filter] at hpe
  exact hpe.2

theorem supported_superset_defaults_witness :
    (".pdf" ∈ supportedFormatsList)
    ∧ ("d/a.pdf" ∈ defaultFileExtensions.flatMap
        (fun ext => FS.globDir ⟨[("d/a.pdf", "x")], ["d"]⟩ "d" ext))
    ∧ ∃ e ∈ defaultFileExtensions, matchesIn "d" e "d/a.pdf" = true :=
  ⟨supported_superset_defaults.1 ".pdf" (by decide), by decide,
    supported_superset_defaults.2.2.2.2.2.2 ⟨[("d/a.pdf", "x")], ["d"]⟩ "d" "d/a.pdf"
      (by decide)⟩

/-! ### Claim C3 -/

/-- Claim C3: converting a non-existent input path fails with NotFound and
performs no write (the error result carries no filesystem change and an
empty log); a batch over a non-existent directory fails with NotFound
before the output directory is created or any file converted. -/
theorem missing_input_not_found (c : DoclingConverter) (fs : FS) :
    (∀ (p : String) (o : Option String), fs.pathExists p = false →
      c.convert_file fs p o = ([], .error (.notFound p)))
    ∧ (∀ (d : String) (odO : Option String) (extsO : Option (List String)),
      fs.pathExists d = false →
      c.convert_multiple_files fs d odO extsO = ([], .error (.notFound d))) := by
  constructor
  · intro p o h
    simp [DoclingConverter.convert_file, h]
  · intro d odO extsO h
    simp [DoclingConverter.convert_multiple_files, h]

theorem missing_input_not_found_witness :
    (FS.pathExists ⟨[], []⟩ "missing.pdf" = false)
    ∧ DoclingConverter.convert_file ⟨false, fun _ => none⟩ ⟨[], []⟩ "missing.pdf" none
        = ([], .error (.notFound "missing.pdf"))
    ∧ DoclingConverter.convert_multiple_files ⟨false, fun _ => none⟩ ⟨[], []⟩ "docs" none none
        = ([], .error (.notFound "docs")) :=
  ⟨by decide,
    (missing_input_not_found ⟨false, fun _ => none⟩ ⟨[], []⟩).1 "missing.pdf" none (by decide),
    (missing_input_not_found ⟨false, fun _ => none⟩ ⟨[], []⟩).2 "docs" none none (by decide)⟩

/-! ### Claim C1 -/

/-- Claim C1: for an existing input file on which the engine succeeds, the
resolved output path is the explicit output path verbatim when one is
supplied and otherwise the input path with its suffix replaced by `.md`;
`convert_file` writes the Markdown to exactly that path and returns it,
and the written path reads back the written content. -/
theorem convert_file_output_resolution (c : DoclingConverter) (fs : FS) (inp md : String)
    (hex : fs.pathExists inp = true) (hmd : c.engine inp = some md) :
    (∀ o : String, c.convert_file fs inp (some o)
      = ([.infoConverting inp o, .infoCompleted o], .ok (fs.writeFile o md, o)))
    ∧ c.convert_file fs inp none
      = ([.infoConverting inp (withSuffixMd inp), .infoCompleted (withSuffixMd inp)],
        .ok (fs.writeFile (withSuffixMd inp) md, withSuffixMd inp))
    ∧ (∀ o : String, (fs.writeFile o md).readFile o = some md) := by
  refine ⟨?_, ?_, fun o => readFile_writeFile fs o md⟩
  · intro o
    simp [DoclingConverter.convert_file, hex, hmd]
  · simp [DoclingConverter.convert_file, hex, hmd]

theorem convert_file_output_resolution_witness :
    cC1.convert_file fsC1 "report.pdf" (some "salida/out.md")
      = ([.infoConverting "report.pdf" "salida/out.md", .infoCompleted "salida/out.md"],
        .ok (fsC1.writeFile "salida/out.md" "MD", "salida/out.md"))
    ∧ cC1.convert_file fsC1 "report.pdf" none
      = ([.infoConverting "report.pdf" "report.md", .infoCompleted "report.md"],
        .ok (fsC1.writeFile "report.md" "MD", "report.md")) := by
  have h := convert_file_output_resolution cC1 fsC1 "report.pdf" "MD" (by decide) (by decide)
  refine ⟨h.1 "salida/out.md", ?_⟩
  have h2 := h.2.1
  rw [(by decide : withSuffixMd "report.pdf" = "report.md")] at h2
  exact h2

/-! ### Claim C6 -/

/-- Claim C6: when neither a (truthy) file input nor a directory input is
given, or both are given, the CLI raises an argument error and exits with
the non-zero code 2, and the trace shows that no converter was constructed
and the filesystem was left untouched. -/
theorem cli_mode_argument_error (mkE : Bool → String → Option String) (fs : FS) (a : Args)
    (h : (given a.input = false ∧ given a.directory = false)
      ∨ (given a.input = true ∧ given a.directory = true)) :
    ∃ msg, main mkE fs a
        = ([.setLogLevel (if a.verbose then .DEBUG else .INFO), .argError msg, .exitCode 2], fs)
      ∧ ∀ b, Action.constructConverter b ∉ (main mkE fs a).1 := by
  rcases h with ⟨h1, h2⟩ | ⟨h1, h2⟩
  · exact ⟨"Debe especificar un archivo de entrada o un directorio",
      by simp [main, h1, h2], by intro b; simp [main, h1, h2]⟩
  · exact ⟨"No puede especificar tanto un archivo como un directorio",
      by simp [main, h1, h2], by intro b; simp [main, h1, h2]⟩

theorem cli_mode_argument_error_witness :
    ∃ msg, main (fun _ _ => none) ⟨[], []⟩ argsC6
        = ([.setLogLevel .INFO, .argError msg, .exitCode 2], (⟨[], []⟩ : FS))
      ∧ ∀ b, Action.constructConverter b ∉ (main (fun _ _ => none) ⟨[], []⟩ argsC6).1 :=
  cli_mode_argument_error (fun _ _ => none) ⟨[], []⟩ argsC6 (Or.inl ⟨by decide, by decide⟩)

/-! ### Claim C7 -/

/-- Claim C7 counterexample: the claim asserts that every verbose
invocation both raises the level to debug and prints the supported
extensions; at the concrete verbose invocation with neither input nor
directory, the level is raised but the argument error exits before the
formats are printed. -/
theorem cli_verbose_formats_counterexample :
    argsC7.verbose = true
    ∧ Action.setLogLevel LogLevel.DEBUG ∈ (main (fun _ _ => none) ⟨[], []⟩ argsC7).1
    ∧ Action.printFormats supportedFormatsList ∉ (main (fun _ _ => none) ⟨[], []⟩ argsC7).1 := by
  refine ⟨rfl, ?_, ?_⟩ <;> simp [main, argsC7, given]

/-- Claim C7 (amended): with the verbose flag set, the first action always
raises the logging level to debug; the supported-extension list is printed
exactly in the runs that reach a successful exit (code 0) — argument
errors and conversion failures exit before the print. -/
theorem cli_verbose_behaviour (mkE : Bool → String → Option String) (fs : FS) (a : Args)
    (hv : a.verbose = true) :
    (main mkE fs a).1.head? = some (Action.setLogLevel LogLevel.DEBUG)
    ∧ (Action.exitCode 0 ∈ (main mkE fs a).1 ↔
        Action.printFormats supportedFormatsList ∈ (main mkE fs a).1) := by
  by_cases hi : given a.input <;> by_cases hd : given a.directory
  · constructor <;> simp [main, hv, hi, hd]
  · rcases hc : DoclingConverter.convert_file ⟨a.ocr, mkE a.ocr⟩ fs (a.input.getD "") a.output
      with ⟨log, r⟩
    cases r with
    | ok v =>
      obtain ⟨fs2, out⟩ := v
      constructor <;> simp [main, hv, hi, hd, hc, DoclingConverter.get_supported_formats]
    | error e =>
      constructor <;> simp [main, hv, hi, hd, hc]
  · rcases hc : DoclingConverter.convert_multiple_files ⟨a.ocr, mkE a.ocr⟩ fs
      (a.directory.getD "") a.output_dir (some a.extensions) with ⟨log, r⟩
    cases r with
    | ok v =>
      obtain ⟨fs2, res⟩ := v
      constructor <;> simp [main, hv, hi, hd, hc, DoclingConverter.get_supported_formats]
    | error e =>
      constructor <;> simp [main, hv, hi, hd, hc]
  · constructor <;> simp [main, hv, hi, hd]

theorem cli_verbose_behaviour_witness :
    argsC7.verbose = true
    ∧ ((main (fun _ _ => none) ⟨[], []⟩ argsC7).1.head?
        = some (Action.setLogLevel LogLevel.DEBUG)
      ∧ (Action.exitCode 0 ∈ (main (fun _ _ => none) ⟨[], []⟩ argsC7).1 ↔
          Action.printFormats supportedFormatsList
            ∈ (main (fun _ _ => none) ⟨[], []⟩ argsC7).1)) :=
  ⟨rfl, cli_verbose_behaviour (fun _ _ => none) ⟨[], []⟩ argsC7 rfl⟩

/-! ### Claim C9 -/

/-- Claim C9: two input files of the same directory whose names share the
stem `s` but carry different matching extensions are both converted to the
single output path `out/s.md`: the `.docx` file, converted later, has its
Markdown `m2` overwrite the `m1` of the earlier `.pdf` file (the final
filesystem carries one entry for that path, holding `m2`), and the path
appears once per conversion in the returned sequence. -/
theorem batch_same_stem_overwrite (s x y m1 m2 : String)
    (hs1 : s.toList ≠ []) (hs2 : '/' ∉ s.toList) :
    (DoclingConverter.mk false (engC9 s m1 m2)).convert_multiple_files (fsC9 s x y)
        "docs" (some "out") (some [".pdf", ".docx"])
      = ([.infoConverting (p1C9 s) (wC9 s), .infoCompleted (wC9 s),
          .infoConverting (p2C9 s) (wC9 s), .infoCompleted (wC9 s)],
        .ok (⟨[(p1C9 s, x), (p2C9 s, y), (wC9 s, m2)], ["docs", "out"]⟩,
          [wC9 s, wC9 s]))
    ∧ FS.readFile ⟨[(p1C9 s, x), (p2C9 s, y), (wC9 s, m2)], ["docs", "out"]⟩ (wC9 s)
        = some m2 := by
  have hne1 : p1C9 s ≠ wC9 s := by
    intro h
    have h2 := congrArg String.toList h
    rw [show (p1C9 s).toList = 'd' :: 'o' :: 'c' :: 's' :: '/' :: (s.toList ++ ".pdf".toList)
          from rfl,
        show (wC9 s).toList = 'o' :: 'u' :: 't' :: '/' :: (s.toList ++ ".md".toList)
          from rfl] at h2
    injection h2 with hch
    exact absurd hch (by decide)
  have hne2 : p2C9 s ≠ wC9 s := by
    intro h
    have h2 := congrArg String.toList h
    rw [show (p2C9 s).toList = 'd' :: 'o' :: 'c' :: 's' :: '/' :: (s.toList ++ ".docx".toList)
          from rfl,
        show (wC9 s).toList = 'o' :: 'u' :: 't' :: '/' :: (s.toList ++ ".md".toList)
          from rfl] at h2
    injection h2 with hch
    exact absurd hch (by decide)
  have hne3 : p2C9 s ≠ p1C9 s := by
    intro h
    have h2 : (p2C9 s).toList.length = (p1C9 s).toList.length := by rw [h]
    rw [show (p2C9 s).toList = 'd' :: 'o' :: 'c' :: 's' :: '/' :: (s.toList ++ ".docx".toList)
          from rfl,
        show (p1C9 s).toList = 'd' :: 'o' :: 'c' :: 's' :: '/' :: (s.toList ++ ".pdf".toList)
          from rfl] at h2
    simp only [List.length_cons, List.length_append] at h2
    have d1 : ".docx".toList.length = 5 := by decide
    have d2 : ".pdf".toList.length = 4 := by decide
    omega
  have hb1 : (p1C9 s == wC9 s) = false := beq_eq_false_iff_ne.mpr hne1
  have hb2 : (p2C9 s == wC9 s) = false := beq_eq_false_iff_ne.mpr hne2
  have hb3 : (p2C9 s == p1C9 s) = false := beq_eq_false_iff_ne.mpr hne3
  have hns : ∀ t : String, '/' ∉ t.toList → '/' ∉ (s ++ t).toList := by
    intro t ht hm
    rw [toList_append] at hm
    rcases List.mem_append.mp hm with h | h
    · exact hs2 h
    · exact ht h
  have hm1 : matchesIn "docs" ".pdf" (p1C9 s) = true := by
    show matchesIn "docs" ".pdf" ("docs" ++ "/" ++ (s ++ ".pdf")) = true
    rw [matchesIn_append "docs" ".pdf" "docs" (s ++ ".pdf") (hns ".pdf" (by decide))]
    have hsf : ".pdf".toList.isSuffixOf ((s ++ ".pdf").toList) = true :=
      isSuffixOf_append_self ".pdf".toList s.toList
    rw [hsf]
    simp
  have hm2 : matchesIn "docs" ".pdf" (p2C9 s) = false := by
    show matchesIn "docs" ".pdf" ("docs" ++ "/" ++ (s ++ ".docx")) = false
    rw [matchesIn_append "docs" ".pdf" "docs" (s ++ ".docx") (hns ".docx" (by decide))]
    have hsf : ".pdf".toList.isSuffixOf ((s ++ ".docx").toList) = false :=
      pdf_not_sfx_docx s.toList
    rw [hsf]
    simp
  have hm3 : matchesIn "docs" ".docx" (p1C9 s) = false := by
    show matchesIn "docs" ".docx" ("docs" ++ "/" ++ (s ++ ".pdf")) = false
    rw [matchesIn_append "docs" ".docx" "docs" (s ++ ".pdf") (hns ".pdf" (by decide))]
    have hsf : ".docx".toList.isSuffixOf ((s ++ ".pdf").toList) = false :=
      docx_not_sfx_pdf s.toList
    rw [hsf]
    simp
  have hm4 : matchesIn "docs" ".docx" (p2C9 s) = true := by
    show matchesIn "docs" ".docx" ("docs" ++ "/" ++ (s ++ ".docx")) = true
    rw [matchesIn_append "docs" ".docx" "docs" (s ++ ".docx") (hns ".docx" (by decide))]
    have hsf : ".docx".toList.isSuffixOf ((s ++ ".docx").toList) = true :=
      isSuffixOf_append_self ".docx".toList s.toList
    rw [hsf]
    simp
  have hm5 : matchesIn "docs" ".docx" (wC9 s) = false := by
    show matchesIn "docs" ".docx" ("out" ++ "/" ++ (s ++ ".md")) = false
    exact matchesIn_ne_dir "docs" ".docx" "out" (s ++ ".md") (by decide) (hns ".md" (by decide))
  have hd1 : matchesIn "docs" ".pdf" "docs" = false := by decide
  have hd2 : matchesIn "docs" ".pdf" "out" = false := by decide
  have hd3 : matchesIn "docs" ".docx" "docs" = false := by decide
  have hd4 : matchesIn "docs" ".docx" "out" = false := by decide
  have ho1 : outPath "out" (p1C9 s) = wC9 s := by
    unfold outPath wC9
    rw [show stemOf (p1C9 s) = s from
      stemOf_dir_name "docs" s "pdf".toList hs1 hs2 (by decide) (by decide) (by decide)]
  have ho2 : outPath "out" (p2C9 s) = wC9 s := by
    unfold outPath wC9
    rw [show stemOf (p2C9 s) = s from
      stemOf_dir_name "docs" s "docx".toList hs1 hs2 (by decide) (by decide) (by decide)]
  have he1 : engC9 s m1 m2 (p1C9 s) = some m1 := by simp [engC9]
  have he2 : engC9 s m1 m2 (p2C9 s) = some m2 := by simp [engC9, hb3]
  have hpd : (fsC9 s x y).pathExists "docs" = true := by simp [fsC9, FS.pathExists]
  have hp1 : (fsC9 s x y).pathExists (p1C9 s) = true := by simp [fsC9, FS.pathExists]
  have hp2 : (FS.mk [(p1C9 s, x), (p2C9 s, y), (wC9 s, m1)] ["docs", "out"]).pathExists
      (p2C9 s) = true := by simp [FS.pathExists]
  have hmk : (fsC9 s x y).mkdir "out" = fsC9 s x y := rfl
  have hg1 : (fsC9 s x y).globDir "docs" ".pdf" = [p1C9 s] := by
    simp [fsC9, FS.globDir, List.filter_cons, hm1, hm2, hd1, hd2]
  have hg2 : (FS.mk [(p1C9 s, x), (p2C9 s, y), (wC9 s, m1)] ["docs", "out"]).globDir
      "docs" ".docx" = [p2C9 s] := by
    simp [FS.globDir, List.filter_cons, hm3, hm4, hm5, hd3, hd4]
  have hw1 : (fsC9 s x y).writeFile (wC9 s) m1
      = FS.mk [(p1C9 s, x), (p2C9 s, y), (wC9 s, m1)] ["docs", "out"] := by
    simp [fsC9, FS.writeFile, hb1, hb2]
  have hw2 : (FS.mk [(p1C9 s, x), (p2C9 s, y), (wC9 s, m1)] ["docs", "out"]).writeFile
      (wC9 s) m2
      = FS.mk [(p1C9 s, x), (p2C9 s, y), (wC9 s, m2)] ["docs", "out"] := by
    simp [FS.writeFile, hb1, hb2, hne1, hne2]
  constructor
  · simp only [DoclingConverter.convert_multiple_files, Option.getD_some, resolvedOutDir,
      hpd, if_true, hmk, batchRun, List.foldl_cons, List.foldl_nil, batchFileStep,
      DoclingConverter.convert_file, hg1, hg2, hp1, hp2, he1, he2, ho1, ho2, hw1, hw2,
      List.nil_append, List.append_assoc, List.cons_append]
  · unfold FS.readFile
    rw [List.find?_cons_of_neg _ (by simp [hb1]), List.find?_cons_of_neg _ (by simp [hb2]),
      List.find?_cons_of_pos _ (by simp)]
    rfl

theorem batch_same_stem_overwrite_witness :
    ("a".toList ≠ [] ∧ '/' ∉ "a".toList)
    ∧ ((DoclingConverter.mk false (engC9 "a" "M1" "M2")).convert_multiple_files
          (fsC9 "a" "X" "Y") "docs" (some "out") (some [".pdf", ".docx"])
        = ([.infoConverting (p1C9 "a") (wC9 "a"), .infoCompleted (wC9 "a"),
            .infoConverting (p2C9 "a") (wC9 "a"), .infoCompleted (wC9 "a")],
          .ok (⟨[(p1C9 "a", "X"), (p2C9 "a", "Y"), (wC9 "a", "M2")], ["docs", "out"]⟩,
            [wC9 "a", wC9 "a"]))
      ∧ FS.readFile ⟨[(p1C9 "a", "X"), (p2C9 "a", "Y"), (wC9 "a", "M2")], ["docs", "out"]⟩
          (wC9 "a") = some "M2") :=
  ⟨⟨by decide, by decide⟩,
    batch_same_stem_overwrite "a" "X" "Y" "M1" "M2" (by decide) (by decide)⟩

end Docling
